import Mathlib

/-!
Verification development for the `agent_tools` detective-case engine.

The caller-facing layer (`DetectiveTools._call`, `as_langchain_tools` in
`agent_tools/actions.py`) is embedded directly.  The store layer (`CaseDB`
in `agent_tools/db.py`) and the field-category constant
(`FIELD_ALIAS_CATEGORY` in `agent_tools/constants.py`) are not present in
the sources; where needed they are modelled from the specification
(sections 4.1 and 4.2), and each such definition is marked
`Modelled from the spec:` in its doc comment.
-/

/-! ## Character helpers (spec section 4.2 normalization passes) -/

/-- Lower-casing of a single basic-latin character, mirroring `Char.toLower`
on code points: an upper-case letter (65..90) is shifted by 32, anything
else is unchanged. -/
def lowerChar (c : Char) : Char :=
  if 65 ≤ c.toNat ∧ c.toNat ≤ 90 then Char.ofNat (c.toNat + 32) else c

/-- Decimal digit test on code points (48..57). -/
def isDigitChar (c : Char) : Bool :=
  decide (48 ≤ c.toNat ∧ c.toNat ≤ 57)

/-- Alphanumeric test on code points: digit, upper-case or lower-case
basic-latin letter. -/
def isAlnumChar (c : Char) : Bool :=
  decide ((48 ≤ c.toNat ∧ c.toNat ≤ 57) ∨ (65 ≤ c.toNat ∧ c.toNat ≤ 90) ∨
    (97 ≤ c.toNat ∧ c.toNat ≤ 122))

/-- The decimal digit character for a value below ten. -/
def digitChar (n : Nat) : Char :=
  Char.ofNat (48 + n)

/-! ## Person/location name normalization (spec section 4.2: case-fold,
collapse internal whitespace). -/

/-- Split a character list into maximal space-free words, dropping all
space characters; `cur` is the word accumulated so far. -/
def wordsAux : List Char → List Char → List (List Char)
  | cur, [] => if cur = [] then [] else [cur]
  | cur, c :: cs =>
    if c = ' ' then (if cur = [] then wordsAux [] cs else cur :: wordsAux [] cs)
    else wordsAux (cur ++ [c]) cs

/-- The space-separated words of a character list. -/
def nameWords (cs : List Char) : List (List Char) :=
  wordsAux [] cs

/-- Join words with single spaces. -/
def nameUnwords : List (List Char) → List Char
  | [] => []
  | [w] => w
  | w :: ws => w ++ ' ' :: nameUnwords ws

/-- Modelled from the spec: person/location normalization — case-fold and
collapse internal whitespace (section 4.2); alias stripping is left to the
alias table. -/
def normNameL (cs : List Char) : List Char :=
  nameUnwords (nameWords (cs.map lowerChar))

/-- String wrapper of `normNameL`. -/
def normName (s : String) : String :=
  String.mk (normNameL s.data)

/-! ## Vehicle-plate / phone-number normalization (spec section 4.2: strip
whitespace, hyphens and punctuation; case-fold; compare as one token). -/

/-- Modelled from the spec: plate/phone normalization — keep only
alphanumeric characters and case-fold them (section 4.2). -/
def normPlateL (cs : List Char) : List Char :=
  (cs.filter isAlnumChar).map lowerChar

/-- String wrapper of `normPlateL`. -/
def normPlate (s : String) : String :=
  String.mk (normPlateL s.data)

/-! ## Timeframe normalization (spec section 4.2: two surface grammars,
both rendered to a canonical 24-hour HH:MM-HH:MM string; malformed input
passes through unchanged, canonicalization being best-effort). -/

/-- Lower-case every character and drop all spaces (am/pm markers are
case-insensitive and the space before them is optional). -/
def stripLower (cs : List Char) : List Char :=
  (cs.map lowerChar).filter (fun c => decide (c ≠ ' '))

/-- Split at the first hyphen, if any. -/
def splitAtDash : List Char → Option (List Char × List Char)
  | [] => none
  | c :: cs =>
    if c = '-' then some ([], cs)
    else (splitAtDash cs).map (fun p => (c :: p.1, p.2))

/-- Split at the first occurrence of the word separator "to", if any. -/
def splitAtTo : List Char → Option (List Char × List Char)
  | [] => none
  | 't' :: 'o' :: cs => some ([], cs)
  | c :: cs => (splitAtTo cs).map (fun p => (c :: p.1, p.2))

/-- Numeric value of a digit list, most significant first. -/
def digitsToNat (ds : List Char) : Nat :=
  ds.foldl (fun a c => a * 10 + (c.toNat - 48)) 0

/-- Parse one side of a time range into minutes since midnight.
Accepted forms (already lower-cased and space-free): `h:mm` or `hh:mm`
(24-hour, hour at most 23), and `h[:mm]am` / `h[:mm]pm` (12-hour, hour
1..12).  Minutes must be two digits and at most 59. -/
def parseTimeL (cs : List Char) : Option Nat :=
  let hd := cs.takeWhile isDigitChar
  if hd.length = 0 ∨ 2 < hd.length then none
  else
    let h := digitsToNat hd
    match cs.dropWhile isDigitChar with
    | ':' :: rest2 =>
      let md := rest2.takeWhile isDigitChar
      if ¬ md.length = 2 then none
      else
        let m := digitsToNat md
        if 59 < m then none
        else
          match rest2.dropWhile isDigitChar with
          | [] => if h ≤ 23 then some (h * 60 + m) else none
          | ['a', 'm'] => if 1 ≤ h ∧ h ≤ 12 then some ((h % 12) * 60 + m) else none
          | ['p', 'm'] => if 1 ≤ h ∧ h ≤ 12 then some ((h % 12 + 12) * 60 + m) else none
          | _ => none
    | ['a', 'm'] => if 1 ≤ h ∧ h ≤ 12 then some ((h % 12) * 60) else none
    | ['p', 'm'] => if 1 ≤ h ∧ h ≤ 12 then some ((h % 12 + 12) * 60) else none
    | _ => none

/-- Render minutes since midnight as a 24-hour `HH:MM` character list. -/
def renderTimeL (t : Nat) : List Char :=
  [digitChar (t / 60 / 10), digitChar (t / 60 % 10), ':',
   digitChar (t % 60 / 10), digitChar (t % 60 % 10)]

/-- Modelled from the spec: timeframe normalization (section 4.2) — split
on a hyphen or the word "to", parse both sides in either surface grammar,
and re-render as canonical `HH:MM-HH:MM`; on any failure the input passes
through unchanged (canonicalization is best-effort, not validation,
section 4.1). -/
def normTimeframeL (cs : List Char) : List Char :=
  let s := stripLower cs
  let sp := match splitAtDash s with
    | some p => some p
    | none => splitAtTo s
  match sp with
  | none => cs
  | some (a, b) =>
    match parseTimeL a, parseTimeL b with
    | some t1, some t2 => renderTimeL t1 ++ '-' :: renderTimeL t2
    | _, _ => cs

/-- String wrapper of `normTimeframeL`. -/
def normTimeframe (s : String) : String :=
  String.mk (normTimeframeL s.data)

/-! ## Field categories and alias canonicalization (spec sections 3, 4.1, 4.2) -/

/-- Modelled from the spec: the closed set of field categories selecting a
canonicalization table (section 4.2); `FIELD_ALIAS_CATEGORY` in
`agent_tools/constants.py` (absent from the sources) maps argument names
to these. -/
inductive FieldCategory
  | person
  | location
  | timeframe
  | plate
  | phone
  deriving DecidableEq

/-- Category-specific normalization pass applied before the alias lookup
(spec section 4.2). -/
def normalizeCat : FieldCategory → String → String
  | .person, s => normName s
  | .location, s => normName s
  | .timeframe, s => normTimeframe s
  | .plate, s => normPlate s
  | .phone, s => normPlate s

/-- Modelled from the spec: `CaseDB.canonicalize` (section 4.1) — look up
the normalized value in the category alias table; if absent, fail soft by
returning the normalized-but-uncanonicalized value. -/
def canonicalizeSpec (tables : FieldCategory → List (String × String))
    (cat : FieldCategory) (v : String) : String :=
  let n := normalizeCat cat v
  match (tables cat).lookup n with
  | some c => c
  | none => n

/-- Well-formedness of one alias table for one category, as required by the
spec invariant that canonical values stay canonical (section 3): every
canonical value the table produces is either mapped to itself after
normalization, or is unmapped and fixed by normalization. -/
def CoherentTable (tbl : List (String × String)) (cat : FieldCategory) : Prop :=
  ∀ n c, tbl.lookup n = some c →
    (tbl.lookup (normalizeCat cat c) = some c ∨
      (tbl.lookup (normalizeCat cat c) = none ∧ normalizeCat cat c = c))

/-! ## Scripted-tuple store (spec sections 3 and 4.1) -/

/-- Modelled from the spec: a scripted tuple — (case id, action name,
ordered canonical argument values) mapped to a response string
(section 3). -/
structure ScriptedTuple where
  case_id : String
  action : String
  args : List String
  response : String
  deriving DecidableEq

/-- Modelled from the spec: `CaseDB.lookup_exact` (section 4.1) — direct
key lookup into the scripted-tuple table scoped to (case id, action). -/
def lookupExact (tuples : List ScriptedTuple) (c a : String)
    (args : List String) : Option String :=
  (tuples.find? (fun t =>
    decide (t.case_id = c ∧ t.action = a ∧ t.args = args))).map ScriptedTuple.response

/-- Spec invariant (section 3): for a given (case, action) the ordered
argument tuple is the unique key — no two tuples collide. -/
def KeyUnique (tuples : List ScriptedTuple) : Prop :=
  ∀ t1 ∈ tuples, ∀ t2 ∈ tuples,
    t1.case_id = t2.case_id → t1.action = t2.action → t1.args = t2.args → t1 = t2

/-! ## The caller-facing layer, embedded from agent_tools/actions.py -/

/-- Fallback error type mirroring `langchain_core.tools.ToolException`
(actions.py lines 11-16): an exception carrying a message string. -/
structure ToolException where
  msg : String
  deriving DecidableEq

/-- The read-only store interface consumed by `DetectiveTools._call`
(`CaseDB` in `agent_tools/db.py`, operations listed in spec section 4.1).
`δ` is the type of the debug component of `lookup_fuzzy`
(`inputArgOrder` returning `none` models the `KeyError` of the source). -/
structure CaseDB (δ : Type) where
  case_exists : String → Bool
  input_arg_order : String → Option (List String)
  actions_for_case : String → List String
  canonicalize : FieldCategory → String → String
  lookup_exact : String → String → List String → Option String
  lookup_fuzzy : String → String → List String → Option String × δ

/-- Replace the fuzzy lookup of a store, possibly changing the debug
type. -/
def CaseDB.withFuzzy (db : CaseDB δ)
    (f : String → String → List String → Option String × δ') : CaseDB δ' :=
  { case_exists := db.case_exists, input_arg_order := db.input_arg_order,
    actions_for_case := db.actions_for_case, canonicalize := db.canonicalize,
    lookup_exact := db.lookup_exact, lookup_fuzzy := f }

/-- Replace both lookups of a store, possibly changing the debug type. -/
def CaseDB.withLookups (db : CaseDB δ)
    (le : String → String → List String → Option String)
    (lf : String → String → List String → Option String × δ') : CaseDB δ' :=
  { case_exists := db.case_exists, input_arg_order := db.input_arg_order,
    actions_for_case := db.actions_for_case, canonicalize := db.canonicalize,
    lookup_exact := le, lookup_fuzzy := lf }

/-- The mutable façade state (actions.py lines 45-55): the loaded store,
the active case id, the match mode and the raise flag. -/
structure DetectiveTools (δ : Type) where
  db : CaseDB δ
  case_id : String
  match_mode : String
  raise_errors : Bool

/-- A single-quote character as a string (used by the Python f-string and
list reprs below). -/
def pyQuote : String := "\x27"

/-- Python `repr` of a list of plain strings, as produced by the f-string
interpolation of `expected_order` in actions.py line 91. -/
def pyListRepr (xs : List String) : String :=
  "[" ++ String.intercalate ", " (xs.map (fun s => pyQuote ++ s ++ pyQuote)) ++ "]"

/-- Message of actions.py line 70. -/
def unknownCaseMsg : String := "[error] Unknown case_id."

/-- Message of actions.py line 76. -/
def unknownActionMsg : String := "[error] Unknown action."

/-- Message of actions.py line 80. -/
def notEnabledMsg : String :=
  "[error] This action is not available for the current case."

/-- Message of actions.py line 91. -/
def missingArgMsg (name : String) (order : List String) : String :=
  "[error] Missing required argument " ++ pyQuote ++ name ++ pyQuote ++
    ". Required args: " ++ pyListRepr order

/-- Message of actions.py line 98. -/
def noMatchExactMsg : String :=
  "[no-match] Inputs not recognized. Check spelling, use full names, and standard time ranges (e.g., " ++
    pyQuote ++ "20:10-20:20" ++ pyQuote ++ ")."

/-- Message of actions.py line 105. -/
def noMatchFuzzyMsg : String :=
  "[no-match] Could not confidently match your inputs. Try exact location names and full person names."

/-- The `_maybe_error` closure of actions.py lines 64-67: raise the message
as a `ToolException` when the effective raise flag is set, otherwise return
it as the call result string. -/
def maybeError (useRaise : Bool) (msg : String) : Except ToolException String :=
  if useRaise then .error ⟨msg⟩ else .ok msg

/-- The argument-building loop of actions.py lines 84-88: walk
`expected_order`, take each named argument from `kwargs` (the first absent
name reproduces the `KeyError`, carried as `.error name`), and canonicalize
it when its name has a field category. -/
def buildArgs (db : CaseDB δ) (fieldCat : String → Option FieldCategory)
    (kwargs : String → Option String) : List String → Except String (List String)
  | [] => .ok []
  | name :: rest =>
    match kwargs name with
    | none => .error name
    | some v =>
      let v' := match fieldCat name with
        | some cat => db.canonicalize cat v
        | none => v
      match buildArgs db fieldCat kwargs rest with
      | .error e => .error e
      | .ok args => .ok (v' :: args)

/-- `DetectiveTools._call` (actions.py lines 61-106): validate the case,
the action catalog entry and the per-case enablement, build the ordered
canonicalized arguments, then try the exact lookup and — unless the mode
is "exact" — the fuzzy lookup, discarding its debug component.
`fieldCat` stands for the imported `FIELD_ALIAS_CATEGORY` constant. -/
def DetectiveTools.call (fieldCat : String → Option FieldCategory)
    (t : DetectiveTools δ) (action_name : String) (raiseOverride : Option Bool)
    (kwargs : String → Option String) : Except ToolException String :=
  let use_raise := match raiseOverride with
    | none => t.raise_errors
    | some b => b
  if t.db.case_exists t.case_id = false then
    maybeError use_raise unknownCaseMsg
  else
    match t.db.input_arg_order action_name with
    | none => maybeError use_raise unknownActionMsg
    | some expected_order =>
      if action_name ∉ t.db.actions_for_case t.case_id then
        maybeError use_raise notEnabledMsg
      else
        match buildArgs t.db fieldCat kwargs expected_order with
        | .error missing => maybeError use_raise (missingArgMsg missing expected_order)
        | .ok args_in_order =>
          let resp := t.db.lookup_exact t.case_id action_name args_in_order
          if resp.isSome ∨ t.match_mode = "exact" then
            match resp with
            | none => maybeError use_raise noMatchExactMsg
            | some r => .ok r
          else
            match (t.db.lookup_fuzzy t.case_id action_name args_in_order).1 with
            | none => maybeError use_raise noMatchFuzzyMsg
            | some r => .ok r

/-! ## Spec-side outcome classification (spec sections 6 and 7) -/

/-- The failure taxonomy of spec section 7: UnknownCase, UnknownAction,
ActionNotEnabledForCase, MissingArgument, NoMatch(exact) and
NoMatch(fuzzy). -/
inductive FailClass
  | unknownCase
  | unknownAction
  | notEnabled
  | missingArg (name : String) (order : List String)
  | noMatchExact
  | noMatchFuzzy
  deriving DecidableEq

/-- The message text carried by each failure class. -/
def FailClass.text : FailClass → String
  | .unknownCase => unknownCaseMsg
  | .unknownAction => unknownActionMsg
  | .notEnabled => notEnabledMsg
  | .missingArg name order => missingArgMsg name order
  | .noMatchExact => noMatchExactMsg
  | .noMatchFuzzy => noMatchFuzzyMsg

/-- Outcome of one engine call before the raise/return policy is applied:
a scripted response or a classified failure. -/
inductive Outcome
  | success (resp : String)
  | failure (fc : FailClass)
  deriving DecidableEq

/-- Pure classifier of one call, following the spec description of the
call sequence (sections 4.1, 6 and 7); it takes no raise flag, the
raise/return policy being applied afterwards by `renderOutcome`. -/
def callOutcome (fieldCat : String → Option FieldCategory) (db : CaseDB δ)
    (case_id match_mode action_name : String)
    (kwargs : String → Option String) : Outcome :=
  if db.case_exists case_id = false then .failure .unknownCase
  else
    match db.input_arg_order action_name with
    | none => .failure .unknownAction
    | some expected_order =>
      if action_name ∉ db.actions_for_case case_id then .failure .notEnabled
      else
        match buildArgs db fieldCat kwargs expected_order with
        | .error missing => .failure (.missingArg missing expected_order)
        | .ok args_in_order =>
          let resp := db.lookup_exact case_id action_name args_in_order
          if resp.isSome ∨ match_mode = "exact" then
            match resp with
            | none => .failure .noMatchExact
            | some r => .success r
          else
            match (db.lookup_fuzzy case_id action_name args_in_order).1 with
            | none => .failure .noMatchFuzzy
            | some r => .success r

/-- The uniform raise/return policy of spec section 7: a success is
returned; a failure message is raised as a `ToolException` when the
effective flag is set and returned as a plain string otherwise. -/
def renderOutcome (useRaise : Bool) : Outcome → Except ToolException String
  | .success r => .ok r
  | .failure fc => if useRaise then .error ⟨fc.text⟩ else .ok fc.text

/-- The `_wrapped` closure built by `as_langchain_tools` (actions.py lines
175-182): save the raise flag, force it for the duration of the call, and
restore it on both the normal and the raising path (the `finally` block);
the result pairs the call result with the final façade state. -/
def wrappedCall (fieldCat : String → Option FieldCategory)
    (t : DetectiveTools δ) (action_name : String)
    (kwargs : String → Option String) :
    Except ToolException String × DetectiveTools δ :=
  let prev := t.raise_errors
  let t1 : DetectiveTools δ := { t with raise_errors := true }
  match t1.call fieldCat action_name none kwargs with
  | .ok v => (.ok v, { t1 with raise_errors := prev })
  | .error e => (.error e, { t1 with raise_errors := prev })

/-! ## Concrete example data, used by the witness theorems.  The case,
action and tuple are the end-to-end example of spec section 8. -/

/-- Modelled from the spec: the alias tables of the example dataset —
smart-location aliases for "Parking B" and the timeframe alias snapping
the example window `20:10-20:18` to the scripted key `20:10-20:20`
(spec sections 8 and 4.2). -/
def exTables : FieldCategory → List (String × String)
  | .timeframe => [("20:10-20:18", "20:10-20:20")]
  | .location => [("parking-b", "Parking B"), ("parking b", "Parking B")]
  | _ => []

/-- Modelled from the spec: the argument-name-to-category map
(`FIELD_ALIAS_CATEGORY`), restricted to the argument names the example
actions use. -/
def exFieldCat : String → Option FieldCategory
  | "location" => some .location
  | "timeframe" => some .timeframe
  | "witness_name" => some .person
  | _ => none

/-- Scripted tuples of the example case (spec section 8). -/
def exTuples : List ScriptedTuple :=
  [⟨"canteen_cashbox_theft", "review_traffic_cctv", ["Parking B", "20:10-20:20"],
    "CCTV: a grey hatchback idles near the canteen at 20:12."⟩,
   ⟨"canteen_cashbox_theft", "interview_witness", ["nisha"],
    "Nisha says she saw someone near the cashbox after closing."⟩]

/-- Example store instance built over the example tuples. -/
def exDb : CaseDB String :=
  { case_exists := fun c => c == "canteen_cashbox_theft",
    input_arg_order := fun a =>
      if a = "review_traffic_cctv" then some ["location", "timeframe"]
      else if a = "interview_witness" then some ["witness_name"]
      else if a = "collect_evidence" then some ["location", "evidence_type"]
      else none,
    actions_for_case := fun c =>
      if c = "canteen_cashbox_theft" then ["review_traffic_cctv", "interview_witness"]
      else [],
    canonicalize := canonicalizeSpec exTables,
    lookup_exact := lookupExact exTuples,
    lookup_fuzzy := fun c a args => (lookupExact exTuples c a args, "debug") }

/-- Example façade state over `exDb` in smart mode. -/
def exTools : DetectiveTools String :=
  { db := exDb, case_id := "canteen_cashbox_theft", match_mode := "smart",
    raise_errors := false }

/-- Example keyword arguments for the CCTV action of spec section 8. -/
def exKwargs : String → Option String
  | "location" => some "parking-b"
  | "timeframe" => some "8:10pm to 8:18 pm"
  | _ => none

/-! ## Helper lemmas about the façade -/

/-- `buildArgs` reads the store only through `canonicalize`. -/
theorem buildArgs_congr {δ δ' : Type} (db1 : CaseDB δ) (db2 : CaseDB δ')
    (fieldCat : String → Option FieldCategory) (kwargs : String → Option String)
    (h : ∀ cat v, db1.canonicalize cat v = db2.canonicalize cat v) :
    ∀ l, buildArgs db1 fieldCat kwargs l = buildArgs db2 fieldCat kwargs l := by
  intro l
  induction l with
  | nil => rfl
  | cons name rest ih =>
    simp only [buildArgs, ih, h]

/-- `buildArgs` fails with the first name of the expected order that is
absent from the keyword arguments, and only then. -/
theorem buildArgs_error_iff {δ : Type} (db : CaseDB δ)
    (fieldCat : String → Option FieldCategory) (kwargs : String → Option String)
    (l : List String) (n : String) :
    buildArgs db fieldCat kwargs l = .error n ↔
      l.find? (fun x => (kwargs x).isNone) = some n := by
  induction l with
  | nil => simp [buildArgs, List.find?]
  | cons name rest ih =>
    cases hk : kwargs name with
    | none => simp [buildArgs, List.find?, hk]
    | some v =>
      simp only [buildArgs, hk, List.find?, Option.isNone_some]
      cases hr : buildArgs db fieldCat kwargs rest with
      | error e => simpa [hr] using ih
      | ok args => simpa [hr] using ih

/-- `DetectiveTools._call` is exactly the spec-side outcome classifier
composed with the raise/return policy, the effective flag being the
per-call override when supplied and the instance flag otherwise. -/
theorem call_renders {δ : Type} (fieldCat : String → Option FieldCategory)
    (t : DetectiveTools δ) (action_name : String) (raiseOverride : Option Bool)
    (kwargs : String → Option String) :
    t.call fieldCat action_name raiseOverride kwargs =
      renderOutcome (raiseOverride.getD t.raise_errors)
        (callOutcome fieldCat t.db t.case_id t.match_mode action_name kwargs) := by
  have huse : (match raiseOverride with
      | none => t.raise_errors
      | some b => b) = raiseOverride.getD t.raise_errors := by
    cases raiseOverride <;> rfl
  simp only [DetectiveTools.call, callOutcome, huse]
  repeat' split <;>
    try (first
      | rfl
      | simp [renderOutcome, maybeError, FailClass.text])

/-- The classifier consults the fuzzy lookup only through the response
component of its result. -/
theorem callOutcome_fuzzy_congr {δ δ' δ'' : Type} (fieldCat : String → Option FieldCategory)
    (db : CaseDB δ)
    (f : String → String → List String → Option String × δ')
    (g : String → String → List String → Option String × δ'')
    (hfg : ∀ c x args, (f c x args).1 = (g c x args).1)
    (case_id match_mode action_name : String) (kwargs : String → Option String) :
    callOutcome fieldCat (db.withFuzzy f) case_id match_mode action_name kwargs =
      callOutcome fieldCat (db.withFuzzy g) case_id match_mode action_name kwargs := by
  have hb := buildArgs_congr (db.withFuzzy f) (db.withFuzzy g) fieldCat kwargs
    (fun _ _ => rfl)
  simp only [callOutcome, hb]
  simp only [CaseDB.withFuzzy]
  simp only [hfg]

/-- In exact mode the classifier never consults the fuzzy lookup at all. -/
theorem callOutcome_exact_no_fuzzy {δ δ' δ'' : Type} (fieldCat : String → Option FieldCategory)
    (db : CaseDB δ)
    (f : String → String → List String → Option String × δ')
    (g : String → String → List String → Option String × δ'')
    (case_id action_name : String) (kwargs : String → Option String) :
    callOutcome fieldCat (db.withFuzzy f) case_id "exact" action_name kwargs =
      callOutcome fieldCat (db.withFuzzy g) case_id "exact" action_name kwargs := by
  have hb := buildArgs_congr (db.withFuzzy f) (db.withFuzzy g) fieldCat kwargs
    (fun _ _ => rfl)
  simp only [callOutcome, hb]
  simp only [CaseDB.withFuzzy]
  simp

/-! ## Claim theorems -/

/-- Claim C4: when the active case id does not exist, every call yields the
UnknownCase outcome, whatever the action name and arguments, and never any
other failure or a no-match outcome. -/
theorem unknown_case_always_unknownCase {δ : Type}
    (fieldCat : String → Option FieldCategory) (db : CaseDB δ)
    (cid mode a : String) (kw : String → Option String)
    (h : db.case_exists cid = false) :
    callOutcome fieldCat db cid mode a kw = .failure .unknownCase := by
  simp [callOutcome, h]

/-- Witness for C4: the example store and a case id it does not contain. -/
theorem unknown_case_always_unknownCase_witness :
    exDb.case_exists "missing_case" = false ∧
      callOutcome exFieldCat exDb "missing_case" "smart" "collect_evidence" exKwargs
        = .failure .unknownCase :=
  ⟨by decide,
   unknown_case_always_unknownCase exFieldCat exDb "missing_case" "smart"
     "collect_evidence" exKwargs (by decide)⟩

/-- Claim C5: an action present in the global catalog but not in the
enabled-action set of an existing case yields ActionNotEnabledForCase, not
UnknownAction. -/
theorem cataloged_disabled_action_notEnabled {δ : Type}
    (fieldCat : String → Option FieldCategory) (db : CaseDB δ)
    (cid mode a : String) (ord : List String) (kw : String → Option String)
    (h1 : db.case_exists cid = true)
    (h2 : db.input_arg_order a = some ord)
    (h3 : a ∉ db.actions_for_case cid) :
    callOutcome fieldCat db cid mode a kw = .failure .notEnabled := by
  simp [callOutcome, h1, h2, h3]

/-- Witness for C5: `collect_evidence` is in the example catalog but not
enabled for the example case. -/
theorem cataloged_disabled_action_notEnabled_witness :
    exDb.case_exists "canteen_cashbox_theft" = true ∧
    exDb.input_arg_order "collect_evidence" = some ["location", "evidence_type"] ∧
    "collect_evidence" ∉ exDb.actions_for_case "canteen_cashbox_theft" ∧
    callOutcome exFieldCat exDb "canteen_cashbox_theft" "smart" "collect_evidence" exKwargs
      = .failure .notEnabled :=
  ⟨by decide, by decide, by decide,
   cataloged_disabled_action_notEnabled exFieldCat exDb "canteen_cashbox_theft" "smart"
     "collect_evidence" ["location", "evidence_type"] exKwargs
     (by decide) (by decide) (by decide)⟩

/-- Claim C7: every call is the pure outcome classifier composed with the
uniform raise/return policy — the effective flag is the per-call override
when supplied and the instance flag otherwise, and for every failure the
returned string and the raised `ToolException` carry the identical
message. -/
theorem raise_return_uniformity {δ : Type}
    (fieldCat : String → Option FieldCategory) (t : DetectiveTools δ)
    (a : String) (ro : Option Bool) (kw : String → Option String) :
    t.call fieldCat a ro kw =
      renderOutcome (ro.getD t.raise_errors)
        (callOutcome fieldCat t.db t.case_id t.match_mode a kw)
    ∧ (∀ fc, callOutcome fieldCat t.db t.case_id t.match_mode a kw = .failure fc →
        t.call fieldCat a (some false) kw = .ok fc.text
        ∧ t.call fieldCat a (some true) kw = .error ⟨fc.text⟩) := by
  refine ⟨call_renders fieldCat t a ro kw, fun fc hfc => ?_⟩
  constructor <;> rw [call_renders] <;> simp [hfc, renderOutcome]

/-- Witness for C7: an input producing the UnknownCase failure, returned as
a string with the flag off and raised with the identical message with the
flag on. -/
theorem raise_return_uniformity_witness :
    callOutcome exFieldCat exDb "missing_case" "smart" "interview_witness" exKwargs
      = .failure .unknownCase
    ∧ DetectiveTools.call exFieldCat ⟨exDb, "missing_case", "smart", false⟩
        "interview_witness" (some false) exKwargs = .ok unknownCaseMsg
    ∧ DetectiveTools.call exFieldCat ⟨exDb, "missing_case", "smart", false⟩
        "interview_witness" (some true) exKwargs = .error ⟨unknownCaseMsg⟩ :=
  ⟨by decide,
   ((raise_return_uniformity exFieldCat ⟨exDb, "missing_case", "smart", false⟩
      "interview_witness" none exKwargs).2 .unknownCase (by decide)).1,
   ((raise_return_uniformity exFieldCat ⟨exDb, "missing_case", "smart", false⟩
      "interview_witness" none exKwargs).2 .unknownCase (by decide)).2⟩

/-- Claim C10: the wrapper built by `as_langchain_tools` leaves the façade
state (in particular the `raise_errors` flag) exactly as it was, on the
normal and on the raising path alike; during the invocation the flag is
forced to true, so failures surface as a raised `ToolException`. -/
theorem wrapped_tool_restores_flag {δ : Type}
    (fieldCat : String → Option FieldCategory) (t : DetectiveTools δ)
    (a : String) (kw : String → Option String) :
    (wrappedCall fieldCat t a kw).2 = t
    ∧ (wrappedCall fieldCat t a kw).1 =
        DetectiveTools.call fieldCat { t with raise_errors := true } a none kw
    ∧ (∀ fc, callOutcome fieldCat t.db t.case_id t.match_mode a kw = .failure fc →
        (wrappedCall fieldCat t a kw).1 = .error ⟨fc.text⟩) := by
  have h2 : (wrappedCall fieldCat t a kw).1 =
      DetectiveTools.call fieldCat { t with raise_errors := true } a none kw := by
    unfold wrappedCall
    cases h : DetectiveTools.call fieldCat
        ({ t with raise_errors := true } : DetectiveTools δ) a none kw <;>
      simp [h]
  refine ⟨?_, h2, fun fc hfc => ?_⟩
  · unfold wrappedCall
    cases h : DetectiveTools.call fieldCat
        ({ t with raise_errors := true } : DetectiveTools δ) a none kw <;>
      simp [h]
  · rw [h2, call_renders]
    simp [hfc, renderOutcome]

/-- Claim C3: in exact mode only the exact lookup is ever attempted (the
result is independent of the fuzzy lookup) and an exact miss yields the
exact-mode no-match outcome; in smart mode the exact lookup is attempted
first (an exact hit decides the call) and the fuzzy lookup decides the
call exactly when the exact lookup misses. -/
theorem matchMode_exact_vs_smart {δ δ' δ'' : Type}
    (fieldCat : String → Option FieldCategory) (db : CaseDB δ)
    (f : String → String → List String → Option String × δ')
    (g : String → String → List String → Option String × δ'')
    (cid a : String) (ord args : List String) (kwargs : String → Option String)
    (h1 : db.case_exists cid = true)
    (h2 : db.input_arg_order a = some ord)
    (h3 : a ∈ db.actions_for_case cid)
    (h4 : buildArgs db fieldCat kwargs ord = .ok args) :
    (∀ cid2 a2 kw2, callOutcome fieldCat (db.withFuzzy f) cid2 "exact" a2 kw2
        = callOutcome fieldCat (db.withFuzzy g) cid2 "exact" a2 kw2)
    ∧ (db.lookup_exact cid a args = none →
        callOutcome fieldCat db cid "exact" a kwargs = .failure .noMatchExact)
    ∧ (∀ r, db.lookup_exact cid a args = some r →
        callOutcome fieldCat db cid "smart" a kwargs = .success r)
    ∧ (db.lookup_exact cid a args = none →
        callOutcome fieldCat db cid "smart" a kwargs =
          (match (db.lookup_fuzzy cid a args).1 with
           | none => Outcome.failure .noMatchFuzzy
           | some r => Outcome.success r)) := by
  refine ⟨fun cid2 a2 kw2 => callOutcome_exact_no_fuzzy fieldCat db f g cid2 a2 kw2,
    fun hnone => ?_, fun r hr => ?_, fun hnone => ?_⟩
  · simp [callOutcome, h1, h2, h3, h4, hnone]
  · simp [callOutcome, h1, h2, h3, h4, hr]
  · simp [callOutcome, h1, h2, h3, h4, hnone]

/-- Witness for C3: on the example store, in smart mode, the exact hit on
the scripted CCTV tuple decides the call. -/
theorem matchMode_exact_vs_smart_witness :
    exDb.case_exists "canteen_cashbox_theft" = true
    ∧ exDb.input_arg_order "review_traffic_cctv" = some ["location", "timeframe"]
    ∧ "review_traffic_cctv" ∈ exDb.actions_for_case "canteen_cashbox_theft"
    ∧ buildArgs exDb exFieldCat exKwargs ["location", "timeframe"]
        = .ok ["Parking B", "20:10-20:20"]
    ∧ exDb.lookup_exact "canteen_cashbox_theft" "review_traffic_cctv"
        ["Parking B", "20:10-20:20"]
        = some "CCTV: a grey hatchback idles near the canteen at 20:12."
    ∧ callOutcome exFieldCat exDb "canteen_cashbox_theft" "smart" "review_traffic_cctv"
        exKwargs = .success "CCTV: a grey hatchback idles near the canteen at 20:12." :=
  ⟨by decide, by decide, by decide, by rfl, by decide,
   (matchMode_exact_vs_smart exFieldCat exDb exDb.lookup_fuzzy exDb.lookup_fuzzy
      "canteen_cashbox_theft" "review_traffic_cctv" ["location", "timeframe"]
      ["Parking B", "20:10-20:20"] exKwargs
      (by decide) (by decide) (by decide) (by rfl)).2.2.1
     "CCTV: a grey hatchback idles near the canteen at 20:12." (by decide)⟩

/-- Claim C6: for an existing case and an enabled cataloged action, when a
required argument name is absent the call yields the MissingArgument
outcome naming the first absent required argument; its message is built
from the argument name and the required-argument names only, and no
lookup is performed (the outcome is unchanged under arbitrary replacement
of both lookups). -/
theorem missing_argument_outcome {δ δ' : Type}
    (fieldCat : String → Option FieldCategory) (db : CaseDB δ)
    (cid mode a : String) (ord : List String) (name : String)
    (kw : String → Option String)
    (le : String → String → List String → Option String)
    (lf : String → String → List String → Option String × δ')
    (h1 : db.case_exists cid = true)
    (h2 : db.input_arg_order a = some ord)
    (h3 : a ∈ db.actions_for_case cid)
    (h4 : ord.find? (fun x => (kw x).isNone) = some name) :
    callOutcome fieldCat db cid mode a kw = .failure (.missingArg name ord)
    ∧ name ∈ ord
    ∧ kw name = none
    ∧ (FailClass.missingArg name ord).text = missingArgMsg name ord
    ∧ callOutcome fieldCat (db.withLookups le lf) cid mode a kw
        = .failure (.missingArg name ord) := by
  have hb : buildArgs db fieldCat kw ord = .error name :=
    (buildArgs_error_iff db fieldCat kw ord name).mpr h4
  have hmem : name ∈ ord := List.mem_of_find?_eq_some h4
  have hnone : kw name = none := by
    have := List.find?_some h4
    simpa [Option.isNone_iff_eq_none] using this
  have hb2 : buildArgs (db.withLookups le lf) fieldCat kw ord = .error name := by
    rw [buildArgs_congr (db.withLookups le lf) db fieldCat kw (fun _ _ => rfl)]
    exact hb
  refine ⟨?_, hmem, hnone, rfl, ?_⟩
  · simp [callOutcome, h1, h2, h3, hb]
  · simp only [callOutcome]
    simp only [CaseDB.withLookups] at hb2 ⊢
    simp [hb2, h1, h2, h3]

/-- Witness for C6: the example CCTV action called with only the location
argument supplied. -/
theorem missing_argument_outcome_witness :
    (["location", "timeframe"].find?
        (fun x => ((fun n => if n = "location" then some "parking-b" else none) x).isNone)
      = some "timeframe")
    ∧ callOutcome exFieldCat exDb "canteen_cashbox_theft" "smart" "review_traffic_cctv"
        (fun n => if n = "location" then some "parking-b" else none)
      = .failure (.missingArg "timeframe" ["location", "timeframe"]) :=
  ⟨by decide,
   (missing_argument_outcome exFieldCat exDb "canteen_cashbox_theft" "smart"
      "review_traffic_cctv" ["location", "timeframe"] "timeframe"
      (fun n => if n = "location" then some "parking-b" else none)
      (fun _ _ _ => none) (fun _ _ _ => (none, ()))
      (by decide) (by decide) (by decide) (by decide)).1⟩

/-- Claim C1 (amended): every failure outcome of a call — whether returned
as a string or raised as a `ToolException` — carries one of the six fixed
template messages, whose only variable parts are the missing argument name
and the required-argument names from the catalog (never tuple contents,
response text or fuzzy scores); and the debug component of `lookup_fuzzy`
is discarded unconditionally: the call result depends on the fuzzy lookup
only through its response component. -/
theorem failure_messages_closed {δ δ' δ'' : Type}
    (fieldCat : String → Option FieldCategory) (db : CaseDB δ)
    (cid mode a : String) (kw : String → Option String) :
    (∀ fc, callOutcome fieldCat db cid mode a kw = .failure fc →
      fc = .unknownCase ∨ fc = .unknownAction ∨ fc = .notEnabled
      ∨ fc = .noMatchExact ∨ fc = .noMatchFuzzy
      ∨ ∃ name ord, db.input_arg_order a = some ord ∧ name ∈ ord
          ∧ kw name = none ∧ fc = .missingArg name ord)
    ∧ (∀ (f : String → String → List String → Option String × δ')
        (g : String → String → List String → Option String × δ''),
        (∀ c x args, (f c x args).1 = (g c x args).1) →
        ∀ (rflag : Bool) (ro : Option Bool),
          DetectiveTools.call fieldCat ⟨db.withFuzzy f, cid, mode, rflag⟩ a ro kw
            = DetectiveTools.call fieldCat ⟨db.withFuzzy g, cid, mode, rflag⟩ a ro kw) := by
  constructor
  · intro fc hfc
    by_cases h1 : db.case_exists cid = false
    · simp [callOutcome, h1] at hfc
      exact Or.inl hfc.symm
    · cases h2 : db.input_arg_order a with
      | none =>
        simp [callOutcome, h1, h2] at hfc
        exact Or.inr (Or.inl hfc.symm)
      | some ord =>
        by_cases h3 : a ∈ db.actions_for_case cid
        · cases h4 : buildArgs db fieldCat kw ord with
          | error name =>
            have hf := (buildArgs_error_iff db fieldCat kw ord name).mp h4
            have hmem : name ∈ ord := List.mem_of_find?_eq_some hf
            have hnone : kw name = none := by
              have := List.find?_some hf
              simpa [Option.isNone_iff_eq_none] using this
            simp [callOutcome, h1, h2, h3, h4] at hfc
            exact Or.inr (Or.inr (Or.inr (Or.inr (Or.inr
              ⟨name, ord, rfl, hmem, hnone, hfc.symm⟩))))
          | ok args =>
            by_cases h5 : (db.lookup_exact cid a args).isSome = true ∨ mode = "exact"
            · rcases h5 with h5a | h5b
              · rw [Option.isSome_iff_exists] at h5a
                obtain ⟨r, h6⟩ := h5a
                simp [callOutcome, h1, h2, h3, h4, h6] at hfc
              · subst h5b
                cases h6 : db.lookup_exact cid a args with
                | none =>
                  simp [callOutcome, h1, h2, h3, h4, h6] at hfc
                  exact Or.inr (Or.inr (Or.inr (Or.inl hfc.symm)))
                | some r =>
                  simp [callOutcome, h1, h2, h3, h4, h6] at hfc
            · push_neg at h5
              obtain ⟨h5a, h5b⟩ := h5
              have h5n : db.lookup_exact cid a args = none := by
                simpa [Option.not_isSome_iff_eq_none] using h5a
              cases h6 : (db.lookup_fuzzy cid a args).1 with
              | none =>
                simp [callOutcome, h1, h2, h3, h4, h5n, h5b, h6] at hfc
                exact Or.inr (Or.inr (Or.inr (Or.inr (Or.inl hfc.symm))))
              | some r =>
                simp [callOutcome, h1, h2, h3, h4, h5n, h5b, h6] at hfc
        · simp [callOutcome, h1, h2, h3] at hfc
          exact Or.inr (Or.inr (Or.inl hfc.symm))
  · intro f g hfg rflag ro
    rw [call_renders, call_renders]
    have := callOutcome_fuzzy_congr fieldCat db f g hfg cid mode a kw
    simp only [this]

/-- Witness for C1 (amended): a concrete failing call classified by the
theorem. -/
theorem failure_messages_closed_witness :
    callOutcome exFieldCat exDb "missing_case" "smart" "interview_witness" exKwargs
      = .failure .unknownCase
    ∧ (FailClass.unknownCase = .unknownCase ∨ FailClass.unknownCase = .unknownAction
      ∨ FailClass.unknownCase = .notEnabled ∨ FailClass.unknownCase = .noMatchExact
      ∨ FailClass.unknownCase = .noMatchFuzzy
      ∨ ∃ name ord, exDb.input_arg_order "interview_witness" = some ord ∧ name ∈ ord
          ∧ exKwargs name = none ∧ FailClass.unknownCase = .missingArg name ord) :=
  ⟨by decide,
   (@failure_messages_closed String Unit Unit exFieldCat exDb "missing_case"
      "smart" "interview_witness" exKwargs).1 .unknownCase (by decide)⟩

/-- Counterexample to C1 as stated: a successful call returns a string
that is itself the scripted response text of a tuple of the store, so the
universal "no string returned by a DetectiveTools call contains any
scripted response text" fails on the success path. -/
theorem response_disclosure_counterexample :
    exTools.call exFieldCat "review_traffic_cctv" none exKwargs
      = .ok "CCTV: a grey hatchback idles near the canteen at 20:12."
    ∧ (⟨"canteen_cashbox_theft", "review_traffic_cctv", ["Parking B", "20:10-20:20"],
        "CCTV: a grey hatchback idles near the canteen at 20:12."⟩ : ScriptedTuple)
        ∈ exTuples :=
  ⟨by rfl, by decide⟩

/-- Claim C2: under the spec key-uniqueness invariant, the exact lookup is
reflexive — each scripted tuple is returned when queried with exactly its
own (case, action, canonical argument values) — and complete: a response
is returned if and only if the queried key is identical to the key of a
scripted tuple carrying that response. -/
theorem exact_match_reflexive_complete (tuples : List ScriptedTuple)
    (hU : KeyUnique tuples) :
    (∀ t ∈ tuples, lookupExact tuples t.case_id t.action t.args = some t.response)
    ∧ (∀ c a args r, lookupExact tuples c a args = some r ↔
        ∃ t ∈ tuples, t.case_id = c ∧ t.action = a ∧ t.args = args ∧ t.response = r) := by
  have key : ∀ c a args r, lookupExact tuples c a args = some r ↔
      ∃ t ∈ tuples, t.case_id = c ∧ t.action = a ∧ t.args = args ∧ t.response = r := by
    intro c a args r
    constructor
    · intro h
      unfold lookupExact at h
      cases hf : tuples.find?
          (fun t => decide (t.case_id = c ∧ t.action = a ∧ t.args = args)) with
      | none => rw [hf] at h; simp at h
      | some t0 =>
        rw [hf] at h
        simp only [Option.map] at h
        have hmem := List.mem_of_find?_eq_some hf
        have hp := List.find?_some hf
        simp only [decide_eq_true_eq] at hp
        exact ⟨t0, hmem, hp.1, hp.2.1, hp.2.2, by injection h⟩
    · rintro ⟨t, hmem, hc, ha, hargs, hr⟩
      unfold lookupExact
      have hex : ∃ x ∈ tuples,
          (fun t => decide (t.case_id = c ∧ t.action = a ∧ t.args = args)) x = true :=
        ⟨t, hmem, by simp [hc, ha, hargs]⟩
      rw [← List.find?_isSome] at hex
      cases hf : tuples.find?
          (fun t => decide (t.case_id = c ∧ t.action = a ∧ t.args = args)) with
      | none => rw [hf] at hex; simp at hex
      | some t0 =>
        have hmem0 := List.mem_of_find?_eq_some hf
        have hp0 := List.find?_some hf
        simp only [decide_eq_true_eq] at hp0
        have : t0 = t :=
          hU t0 hmem0 t hmem (hp0.1.trans hc.symm) (hp0.2.1.trans ha.symm)
            (hp0.2.2.trans hargs.symm)
        simp [this, hr]
  refine ⟨fun t hmem => ?_, key⟩
  exact (key t.case_id t.action t.args t.response).mpr ⟨t, hmem, rfl, rfl, rfl, rfl⟩

/-- Witness for C2: the example tuple table satisfies key uniqueness and
the CCTV tuple is returned for its own key. -/
theorem exact_match_reflexive_complete_witness :
    KeyUnique exTuples
    ∧ lookupExact exTuples "canteen_cashbox_theft" "review_traffic_cctv"
        ["Parking B", "20:10-20:20"]
      = some "CCTV: a grey hatchback idles near the canteen at 20:12." :=
  ⟨by unfold KeyUnique; decide,
   (exact_match_reflexive_complete exTuples (by unfold KeyUnique; decide)).1
     ⟨"canteen_cashbox_theft", "review_traffic_cctv", ["Parking B", "20:10-20:20"],
      "CCTV: a grey hatchback idles near the canteen at 20:12."⟩ (by decide)⟩

/-! ## Helper lemmas about characters -/

/-- Code point of `Char.ofNat` at a valid (basic-plane) code point. -/
theorem charToNat_ofNat (n : Nat) (h : n < 55296) : (Char.ofNat n).toNat = n := by
  have hv : n.isValidChar := Or.inl h
  simp [Char.ofNat, hv, Char.ofNatAux, Char.toNat, UInt32.toNat, BitVec.toNat_ofNatLt]

/-- Lower-casing shifts an upper-case letter by 32. -/
theorem toNat_lowerChar_upper (c : Char) (h : 65 ≤ c.toNat ∧ c.toNat ≤ 90) :
    (lowerChar c).toNat = c.toNat + 32 := by
  unfold lowerChar
  rw [if_pos h, charToNat_ofNat]
  omega

/-- Lower-casing fixes everything that is not an upper-case letter. -/
theorem lowerChar_eq_self (c : Char) (h : ¬ (65 ≤ c.toNat ∧ c.toNat ≤ 90)) :
    lowerChar c = c :=
  if_neg h

/-- Lower-casing is idempotent. -/
theorem lowerChar_idem (c : Char) : lowerChar (lowerChar c) = lowerChar c := by
  by_cases h : 65 ≤ c.toNat ∧ c.toNat ≤ 90
  · have h2 : (lowerChar c).toNat = c.toNat + 32 := toNat_lowerChar_upper c h
    have h3 : ¬ (65 ≤ (lowerChar c).toNat ∧ (lowerChar c).toNat ≤ 90) := by omega
    exact lowerChar_eq_self _ h3
  · rw [lowerChar_eq_self c h, lowerChar_eq_self c h]

/-- Characters with different code points differ. -/
theorem char_ne_of_toNat_ne {a b : Char} (h : a.toNat ≠ b.toNat) : a ≠ b :=
  fun hab => h (hab ▸ rfl)

/-- Lower-casing never produces a space from a non-space. -/
theorem lowerChar_ne_space (c : Char) (h : c ≠ ' ') : lowerChar c ≠ ' ' := by
  by_cases hu : 65 ≤ c.toNat ∧ c.toNat ≤ 90
  · have h2 := toNat_lowerChar_upper c hu
    apply char_ne_of_toNat_ne
    have : (' ' : Char).toNat = 32 := by decide
    omega
  · rw [lowerChar_eq_self c hu]; exact h

/-- Lower-casing fixes the space character. -/
theorem lowerChar_space : lowerChar ' ' = ' ' := by decide

/-- Code point of a digit character. -/
theorem toNat_digitChar (n : Nat) (h : n < 10) : (digitChar n).toNat = 48 + n := by
  unfold digitChar
  exact charToNat_ofNat _ (by omega)

/-- Digit characters pass the digit test. -/
theorem isDigitChar_digitChar (n : Nat) (h : n < 10) :
    isDigitChar (digitChar n) = true := by
  simp only [isDigitChar, toNat_digitChar n h, decide_eq_true_eq]
  omega

/-- The colon is not a digit. -/
theorem isDigitChar_colon : isDigitChar ':' = false := by decide

/-- Lower-casing fixes digit characters. -/
theorem lowerChar_digitChar (n : Nat) (h : n < 10) :
    lowerChar (digitChar n) = digitChar n := by
  apply lowerChar_eq_self
  rw [toNat_digitChar n h]
  omega

/-- Digit characters are not spaces. -/
theorem digitChar_ne_space (n : Nat) (h : n < 10) : digitChar n ≠ ' ' := by
  apply char_ne_of_toNat_ne
  rw [toNat_digitChar n h]
  have h32 : (' ' : Char).toNat = 32 := by decide
  omega

/-! ## Helper lemmas about word splitting and joining -/

/-- A list map under a pointwise-identity function is the list itself. -/
theorem listMap_eq_self {α : Type} (f : α → α) :
    ∀ (l : List α), (∀ a ∈ l, f a = a) → l.map f = l := by
  intro l
  induction l with
  | nil => intro _; rfl
  | cons a l ih =>
    intro h
    simp only [List.map_cons]
    rw [h a (by simp), ih (fun x hx => h x (by simp [hx]))]

/-- Scanning a space-free word extends the current accumulator. -/
theorem wordsAux_append (w : List Char) :
    ∀ (cur rest : List Char), (∀ c ∈ w, c ≠ ' ') →
      wordsAux cur (w ++ rest) = wordsAux (cur ++ w) rest := by
  induction w with
  | nil => intro cur rest _; simp
  | cons c w ih =>
    intro cur rest hw
    have hc : c ≠ ' ' := hw c (by simp)
    simp only [List.cons_append, wordsAux, if_neg hc, List.append_eq]
    rw [ih (cur ++ [c]) rest (fun x hx => hw x (by simp [hx]))]
    simp

/-- Every word produced by the splitter is nonempty and space-free,
provided the accumulated word is space-free. -/
theorem wordsAux_nonempty_nospace :
    ∀ (cs cur : List Char), (∀ c ∈ cur, c ≠ ' ') →
      ∀ w ∈ wordsAux cur cs, w ≠ [] ∧ ∀ c ∈ w, c ≠ ' ' := by
  intro cs
  induction cs with
  | nil =>
    intro cur hcur w hw
    unfold wordsAux at hw
    split at hw
    · simp at hw
    · rename_i hne
      simp at hw
      subst hw
      exact ⟨hne, hcur⟩
  | cons c cs ih =>
    intro cur hcur w hw
    unfold wordsAux at hw
    split at hw
    · split at hw
      · exact ih [] (by simp) w hw
      · rename_i hne
        rcases List.mem_cons.mp hw with rfl | hw2
        · exact ⟨hne, hcur⟩
        · exact ih [] (by simp) w hw2
    · rename_i hc
      refine ih (cur ++ [c]) ?_ w hw
      intro x hx
      rcases List.mem_append.mp hx with hx1 | hx2
      · exact hcur x hx1
      · simp at hx2; subst hx2; exact hc

/-- Every character of every produced word satisfies any predicate holding
on the accumulator and the input. -/
theorem wordsAux_pred (P : Char → Prop) :
    ∀ (cs cur : List Char), (∀ c ∈ cur, P c) → (∀ c ∈ cs, P c) →
      ∀ w ∈ wordsAux cur cs, ∀ c ∈ w, P c := by
  intro cs
  induction cs with
  | nil =>
    intro cur hcur _ w hw
    unfold wordsAux at hw
    split at hw
    · simp at hw
    · simp at hw
      subst hw
      exact hcur
  | cons c cs ih =>
    intro cur hcur hcs w hw
    have hc : P c := hcs c (by simp)
    have hcs2 : ∀ x ∈ cs, P x := fun x hx => hcs x (by simp [hx])
    unfold wordsAux at hw
    split at hw
    · split at hw
      · exact ih [] (by simp) hcs2 w hw
      · rcases List.mem_cons.mp hw with rfl | hw2
        · exact hcur
        · exact ih [] (by simp) hcs2 w hw2
    · refine ih (cur ++ [c]) ?_ hcs2 w hw
      intro x hx
      rcases List.mem_append.mp hx with hx1 | hx2
      · exact hcur x hx1
      · simp at hx2; subst hx2; exact hc

/-- Splitting the joined form of nonempty space-free words recovers the
words. -/
theorem nameWords_nameUnwords :
    ∀ (ws : List (List Char)), (∀ w ∈ ws, w ≠ [] ∧ ∀ c ∈ w, c ≠ ' ') →
      nameWords (nameUnwords ws) = ws := by
  intro ws
  induction ws with
  | nil => intro _; rfl
  | cons w ws ih =>
    intro h
    obtain ⟨hw1, hw2⟩ := h w (by simp)
    cases ws with
    | nil =>
      show wordsAux [] (nameUnwords [w]) = [w]
      have : nameUnwords [w] = w ++ [] := by simp [nameUnwords]
      rw [this, wordsAux_append w [] [] hw2]
      simp [wordsAux, hw1]
    | cons w2 ws2 =>
      show wordsAux [] (nameUnwords (w :: w2 :: ws2)) = w :: w2 :: ws2
      have hrec : nameUnwords (w :: w2 :: ws2) = w ++ ' ' :: nameUnwords (w2 :: ws2) :=
        rfl
      rw [hrec, wordsAux_append w [] (' ' :: nameUnwords (w2 :: ws2)) hw2]
      simp only [List.nil_append]
      unfold wordsAux
      rw [if_pos rfl, if_neg hw1]
      have := ih (fun x hx => h x (by simp [hx]))
      exact congrArg (w :: ·) this

/-- Mapping a space-preserving function commutes with joining. -/
theorem map_nameUnwords (f : Char → Char) (hf : f ' ' = ' ') :
    ∀ (ws : List (List Char)),
      (nameUnwords ws).map f = nameUnwords (ws.map (List.map f)) := by
  intro ws
  induction ws with
  | nil => rfl
  | cons w ws ih =>
    cases ws with
    | nil => rfl
    | cons w2 ws2 =>
      show (w ++ ' ' :: nameUnwords (w2 :: ws2)).map f
        = (w.map f) ++ ' ' :: nameUnwords ((w2 :: ws2).map (List.map f))
      rw [List.map_append, List.map_cons, hf, ih]

/-- Idempotence of person/location normalization. -/
theorem normNameL_idem (cs : List Char) : normNameL (normNameL cs) = normNameL cs := by
  unfold normNameL
  have hlow : ∀ c ∈ cs.map lowerChar, lowerChar c = c := by
    intro c hc
    rcases List.mem_map.mp hc with ⟨c0, _, rfl⟩
    exact lowerChar_idem c0
  have hws := wordsAux_nonempty_nospace (cs.map lowerChar) [] (by simp)
  have hwsP := wordsAux_pred (fun c => lowerChar c = c) (cs.map lowerChar) [] (by simp) hlow
  rw [map_nameUnwords lowerChar lowerChar_space]
  have hfix : (nameWords (cs.map lowerChar)).map (List.map lowerChar)
      = nameWords (cs.map lowerChar) := by
    apply listMap_eq_self
    intro w hw
    exact listMap_eq_self lowerChar w (hwsP w hw)
  rw [hfix, nameWords_nameUnwords (nameWords (cs.map lowerChar)) hws]

/-- Idempotence of `normName`. -/
theorem normName_idem (s : String) : normName (normName s) = normName s := by
  unfold normName
  exact congrArg String.mk (normNameL_idem s.data)

/-! ## Helper lemmas about plate/phone normalization -/

/-- Lower-casing preserves alphanumeric characters. -/
theorem isAlnumChar_lowerChar (c : Char) (h : isAlnumChar c = true) :
    isAlnumChar (lowerChar c) = true := by
  simp only [isAlnumChar, decide_eq_true_eq] at h ⊢
  by_cases hu : 65 ≤ c.toNat ∧ c.toNat ≤ 90
  · rw [toNat_lowerChar_upper c hu]
    omega
  · rw [lowerChar_eq_self c hu]
    exact h

/-- Idempotence of plate/phone normalization. -/
theorem normPlateL_idem (cs : List Char) : normPlateL (normPlateL cs) = normPlateL cs := by
  unfold normPlateL
  have hfix : ((cs.filter isAlnumChar).map lowerChar).filter isAlnumChar
      = (cs.filter isAlnumChar).map lowerChar := by
    rw [List.filter_eq_self]
    intro c hc
    rcases List.mem_map.mp hc with ⟨c0, hc0, rfl⟩
    exact isAlnumChar_lowerChar c0 (List.of_mem_filter hc0)
  rw [hfix, List.map_map]
  apply List.map_congr_left
  intro c _
  simpa using lowerChar_idem c

/-- Idempotence of `normPlate`. -/
theorem normPlate_idem (s : String) : normPlate (normPlate s) = normPlate s := by
  unfold normPlate
  exact congrArg String.mk (normPlateL_idem s.data)

/-! ## Helper lemmas about timeframe normalization -/

/-- Value of a two-digit rendering. -/
theorem digitsToNat_two (a b : Nat) (ha : a < 10) (hb : b < 10) :
    digitsToNat [digitChar a, digitChar b] = a * 10 + b := by
  simp only [digitsToNat, List.foldl, toNat_digitChar a ha, toNat_digitChar b hb]
  omega

/-- Parsing a rendered 24-hour time recovers the minute value. -/
theorem parseTimeL_renderTimeL (t : Nat) (ht : t < 1440) :
    parseTimeL (renderTimeL t) = some t := by
  have h1 : t / 60 / 10 < 10 := by omega
  have h2 : t / 60 % 10 < 10 := by omega
  have h3 : t % 60 / 10 < 10 := by omega
  have h4 : t % 60 % 10 < 10 := by omega
  have htw : List.takeWhile isDigitChar (renderTimeL t)
      = [digitChar (t / 60 / 10), digitChar (t / 60 % 10)] := by
    simp [renderTimeL, List.takeWhile, isDigitChar_digitChar _ h1,
      isDigitChar_digitChar _ h2, isDigitChar_colon]
  have hdw : List.dropWhile isDigitChar (renderTimeL t)
      = ':' :: [digitChar (t % 60 / 10), digitChar (t % 60 % 10)] := by
    simp [renderTimeL, List.dropWhile, isDigitChar_digitChar _ h1,
      isDigitChar_digitChar _ h2, isDigitChar_colon]
  have htw2 : List.takeWhile isDigitChar [digitChar (t % 60 / 10), digitChar (t % 60 % 10)]
      = [digitChar (t % 60 / 10), digitChar (t % 60 % 10)] := by
    simp [List.takeWhile, isDigitChar_digitChar _ h3, isDigitChar_digitChar _ h4]
  have hdw2 : List.dropWhile isDigitChar [digitChar (t % 60 / 10), digitChar (t % 60 % 10)]
      = [] := by
    simp [List.dropWhile, isDigitChar_digitChar _ h3, isDigitChar_digitChar _ h4]
  have hh : t / 60 / 10 * 10 + t / 60 % 10 = t / 60 := by omega
  have hm : t % 60 / 10 * 10 + t % 60 % 10 = t % 60 := by omega
  unfold parseTimeL
  rw [htw, hdw]
  simp only [List.length_cons, List.length_nil]
  rw [if_neg (by omega)]
  rw [htw2]
  simp only [List.length_cons, List.length_nil]
  rw [if_neg (by simp)]
  rw [hdw2]
  rw [digitsToNat_two _ _ h1 h2, digitsToNat_two _ _ h3 h4, hh, hm]
  rw [if_neg (show ¬ 59 < t % 60 by omega)]
  show (if t / 60 ≤ 23 then some (t / 60 * 60 + t % 60) else none) = some t
  rw [if_pos (show t / 60 ≤ 23 by omega)]
  congr 1
  omega

/-- Any successfully parsed time is below 24 hours. -/
theorem parseTimeL_lt (cs : List Char) (t : Nat) (h : parseTimeL cs = some t) :
    t < 1440 := by
  unfold parseTimeL at h
  repeat' split at h
  all_goals simp_all
  all_goals omega

/-- Strip-and-lower fixes any list of lowered non-space characters. -/
theorem stripLower_fix (l : List Char)
    (h : ∀ c ∈ l, lowerChar c = c ∧ c ≠ ' ') : stripLower l = l := by
  unfold stripLower
  rw [listMap_eq_self lowerChar l (fun c hc => (h c hc).1)]
  rw [List.filter_eq_self]
  intro c hc
  simpa using (h c hc).2

/-- Splitting at the dash of a dash-free prefix. -/
theorem splitAtDash_append (b : List Char) :
    ∀ (a : List Char), '-' ∉ a → splitAtDash (a ++ '-' :: b) = some (a, b) := by
  intro a
  induction a with
  | nil => intro _; simp [splitAtDash]
  | cons c a ih =>
    intro h
    have hc : ¬ c = '-' := by
      intro hcc
      exact h (by simp [hcc])
    simp only [List.cons_append, splitAtDash, if_neg hc, List.append_eq]
    rw [ih (fun hm => h (by simp [hm]))]
    rfl

/-- Every character of a rendered time is a digit or a colon, hence fixed
by lower-casing, distinct from space and distinct from the dash. -/
theorem renderTimeL_chars (t : Nat) (ht : t < 1440) :
    ∀ c ∈ renderTimeL t, lowerChar c = c ∧ c ≠ ' ' ∧ c ≠ '-' := by
  have h1 : t / 60 / 10 < 10 := by omega
  have h2 : t / 60 % 10 < 10 := by omega
  have h3 : t % 60 / 10 < 10 := by omega
  have h4 : t % 60 % 10 < 10 := by omega
  have hdig : ∀ n, n < 10 → lowerChar (digitChar n) = digitChar n
      ∧ digitChar n ≠ ' ' ∧ digitChar n ≠ '-' := by
    intro n hn
    refine ⟨lowerChar_digitChar n hn, digitChar_ne_space n hn, ?_⟩
    apply char_ne_of_toNat_ne
    rw [toNat_digitChar n hn]
    have : ('-' : Char).toNat = 45 := by decide
    omega
  intro c hc
  simp only [renderTimeL, List.mem_cons, List.not_mem_nil, or_false] at hc
  rcases hc with rfl | rfl | rfl | rfl | rfl
  · exact hdig _ h1
  · exact hdig _ h2
  · refine ⟨by decide, by decide, by decide⟩
  · exact hdig _ h3
  · exact hdig _ h4

/-- A rendered range is a fixed point of timeframe normalization. -/
theorem normTimeframeL_renderTimeL (t1 t2 : Nat) (h1 : t1 < 1440) (h2 : t2 < 1440) :
    normTimeframeL (renderTimeL t1 ++ '-' :: renderTimeL t2)
      = renderTimeL t1 ++ '-' :: renderTimeL t2 := by
  have hfix : stripLower (renderTimeL t1 ++ '-' :: renderTimeL t2)
      = renderTimeL t1 ++ '-' :: renderTimeL t2 := by
    apply stripLower_fix
    intro c hc
    rcases List.mem_append.mp hc with hc1 | hc2
    · exact ⟨(renderTimeL_chars t1 h1 c hc1).1, (renderTimeL_chars t1 h1 c hc1).2.1⟩
    · rcases List.mem_cons.mp hc2 with rfl | hc3
      · exact ⟨by decide, by decide⟩
      · exact ⟨(renderTimeL_chars t2 h2 c hc3).1, (renderTimeL_chars t2 h2 c hc3).2.1⟩
  have hdash : '-' ∉ renderTimeL t1 := by
    intro hm
    exact (renderTimeL_chars t1 h1 '-' hm).2.2 rfl
  unfold normTimeframeL
  rw [hfix]
  simp only [splitAtDash_append (renderTimeL t2) (renderTimeL t1) hdash,
    parseTimeL_renderTimeL t1 h1, parseTimeL_renderTimeL t2 h2]

/-- Timeframe normalization either passes the input through or produces a
rendered range of two in-range times. -/
theorem normTimeframeL_cases (cs : List Char) :
    normTimeframeL cs = cs
    ∨ ∃ t1 t2, t1 < 1440 ∧ t2 < 1440
        ∧ normTimeframeL cs = renderTimeL t1 ++ '-' :: renderTimeL t2 := by
  have hz : normTimeframeL cs = (match (match splitAtDash (stripLower cs) with
      | some p => some p
      | none => splitAtTo (stripLower cs)) with
    | none => cs
    | some (a, b) =>
      match parseTimeL a, parseTimeL b with
      | some t1, some t2 => renderTimeL t1 ++ '-' :: renderTimeL t2
      | _, _ => cs) := rfl
  rw [hz]
  split
  · exact Or.inl rfl
  · split
    · rename_i t1 t2 hp1 hp2
      exact Or.inr ⟨t1, t2, parseTimeL_lt _ t1 hp1, parseTimeL_lt _ t2 hp2, rfl⟩
    · exact Or.inl rfl

/-- Idempotence of timeframe normalization. -/
theorem normTimeframeL_idem (cs : List Char) :
    normTimeframeL (normTimeframeL cs) = normTimeframeL cs := by
  rcases normTimeframeL_cases cs with h | ⟨t1, t2, h1, h2, h⟩
  · simp only [h]
  · rw [h, normTimeframeL_renderTimeL t1 t2 h1 h2]

/-- Idempotence of `normTimeframe`. -/
theorem normTimeframe_idem (s : String) :
    normTimeframe (normTimeframe s) = normTimeframe s := by
  unfold normTimeframe
  exact congrArg String.mk (normTimeframeL_idem s.data)

/-- Idempotence of every category normalization pass. -/
theorem normalizeCat_idem (cat : FieldCategory) (s : String) :
    normalizeCat cat (normalizeCat cat s) = normalizeCat cat s := by
  cases cat
  · exact normName_idem s
  · exact normName_idem s
  · exact normTimeframe_idem s
  · exact normPlate_idem s
  · exact normPlate_idem s

/-- Claim C8: canonicalization is idempotent — for every field category and
every input string, canonicalizing an already-canonicalized value returns
it unchanged, provided the category alias table satisfies the spec
invariant that canonical values stay canonical. -/
theorem canonicalize_idempotent (tables : FieldCategory → List (String × String))
    (cat : FieldCategory) (x : String)
    (hT : CoherentTable (tables cat) cat) :
    canonicalizeSpec tables cat (canonicalizeSpec tables cat x)
      = canonicalizeSpec tables cat x := by
  unfold canonicalizeSpec
  cases h : (tables cat).lookup (normalizeCat cat x) with
  | none =>
    simp only [h]
    rw [normalizeCat_idem, h]
  | some c =>
    simp only [h]
    rcases hT _ _ h with h2 | ⟨h2, h3⟩
    · simp [h2]
    · rw [h3] at h2
      simp [h2, h3]

/-- Coherence of the example timeframe alias table: its single canonical
value `20:10-20:20` is already normal and unmapped. -/
theorem exTables_timeframe_coherent : CoherentTable (exTables .timeframe) .timeframe := by
  intro n c h
  simp only [exTables, List.lookup] at h
  split at h
  · rename_i heq
    have hc : c = "20:10-20:20" := by
      injection h with h
      exact h.symm
    subst hc
    right
    constructor
    · rfl
    · rfl
  · simp at h

/-- Witness for C8: the coherent example timeframe table and a concrete
input, canonicalized twice. -/
theorem canonicalize_idempotent_witness :
    CoherentTable (exTables .timeframe) .timeframe
    ∧ canonicalizeSpec exTables .timeframe
        (canonicalizeSpec exTables .timeframe "8:10pm-8:18pm")
      = canonicalizeSpec exTables .timeframe "8:10pm-8:18pm" :=
  ⟨exTables_timeframe_coherent,
   canonicalize_idempotent exTables .timeframe "8:10pm-8:18pm"
     exTables_timeframe_coherent⟩

/-- Claim C9: the three surface forms `8:10pm-8:18pm`, `20:10-20:20` and
`8:10 PM to 8:18 PM` all canonicalize to the identical key string
`20:10-20:20` (the first and third through the timeframe alias table entry
of the example dataset). -/
theorem timeframe_canonical_examples :
    canonicalizeSpec exTables .timeframe "8:10pm-8:18pm" = "20:10-20:20"
    ∧ canonicalizeSpec exTables .timeframe "20:10-20:20" = "20:10-20:20"
    ∧ canonicalizeSpec exTables .timeframe "8:10 PM to 8:18 PM" = "20:10-20:20" :=
  ⟨by decide, by decide, by decide⟩

/-- Witness for C10: wrapping the example façade call restores the state
on the concrete example inputs. -/
theorem wrapped_tool_restores_flag_witness :
    (wrappedCall exFieldCat exTools "interview_witness" exKwargs).2 = exTools
    ∧ (wrappedCall exFieldCat exTools "interview_witness" exKwargs).1 =
        DetectiveTools.call exFieldCat { exTools with raise_errors := true }
          "interview_witness" none exKwargs
    ∧ (∀ fc, callOutcome exFieldCat exTools.db exTools.case_id exTools.match_mode
          "interview_witness" exKwargs = .failure fc →
        (wrappedCall exFieldCat exTools "interview_witness" exKwargs).1
          = .error ⟨fc.text⟩) :=
  wrapped_tool_restores_flag exFieldCat exTools "interview_witness" exKwargs
